import Mathlib

/-!
Verification of the batched implied-volatility calibration engine
(`AdaptiveIVSolver` in `p2_implied_vol_calculator.py`).

The development is a shallow embedding of `AdaptiveIVSolver.solve_batch_iv`
and `AdaptiveIVSolver.black_scholes`:

* The calibration loop is embedded over exact rationals `ℚ` (the float32
  tensors of the source are modelled as exact values).  The loop is
  parametric in `priceFn` (abstracting the call `self.black_scholes(...)`
  for the fixed batch inputs S, K, T, r, is_call) and in `update`
  (abstracting `loss.backward(); optimizer.step()`, i.e. the external
  torch autograd engine plus `torch.optim.Adam`, as a function of the
  iteration index and the current volatility vector).  Everything the
  loop itself does — clamping, checkpointing, convergence marking, early
  stop, final statistics — is translated line by line from the source.
* The Adam update rule and the Black–Scholes pricer are embedded over `ℝ`
  (they involve `sqrt`, `log`, `exp` and the standard normal CDF).  The
  normal CDF `torch.distributions.Normal(0,1).cdf` is an external library
  function and is kept as an abstract parameter `Phi` of the pricer.
-/

namespace IVCalib

/-- Configuration of `solve_batch_iv` relevant to the loop: the keyword
arguments `initial_sigma`, `max_iterations`, `convergence_threshold`,
`check_every` of the source. -/
structure LoopConfig where
  initialSigma : ℚ
  maxIterations : ℕ
  convergenceThreshold : ℚ
  checkEvery : ℕ

/-- The source's defaults: `initial_sigma=0.4`, `max_iterations=2000`,
`convergence_threshold=1e-4`, `check_every=10`. -/
def defaultConfig : LoopConfig :=
  { initialSigma := 2/5
    maxIterations := 2000
    convergenceThreshold := 1/10000
    checkEvery := 10 }

/-- Mutable per-batch state of the loop body of `solve_batch_iv`:
the tensors `sigma`, `converged`, `iterations_taken`, `previous_prices`. -/
structure LoopState (n : ℕ) where
  sigma : Fin n → ℚ
  converged : Fin n → Bool
  iterationsTaken : Fin n → ℕ
  previousPrices : Fin n → ℚ

/-- The clamp `torch.clamp(sigma.data, 0.001, 5.0)` applied after every
optimizer step (line 139 of the source). -/
def clampSigma (x : ℚ) : ℚ := min 5 (max (1/1000) x)

/-- State before the first iteration (lines 95–114 of the source):
`sigma` filled with `initial_sigma`, `converged` all `False`,
`iterations_taken` all `0`, `previous_prices` all `0.0`. -/
def initState (n : ℕ) (cfg : LoopConfig) : LoopState n :=
  { sigma := fun _ => cfg.initialSigma
    converged := fun _ => false
    iterationsTaken := fun _ => 0
    previousPrices := fun _ => 0 }

/-- The test `converged.all()` used for the early stop (line 163). -/
def allConverged {n : ℕ} (s : LoopState n) : Bool :=
  (List.finRange n).all s.converged

/-- One round of the optimization loop (lines 121–151 of the source), for a
given iteration index.  `priceFn` abstracts the forward pass
`self.black_scholes(S, K, T, r, sigma, is_call)`; `update` abstracts
`loss.backward(); optimizer.step()` and returns the un-clamped new `sigma`.
Note that `model_prices` is computed at the start of the round, from the
volatility vector BEFORE `optimizer.step()`, and is the vector the periodic
convergence check at line 142 compares and stores. -/
def roundStep {n : ℕ} (priceFn : (Fin n → ℚ) → Fin n → ℚ)
    (update : ℕ → (Fin n → ℚ) → Fin n → ℚ)
    (cfg : LoopConfig) (iteration : ℕ) (s : LoopState n) : LoopState n :=
  let modelPrices := priceFn s.sigma
  let sigmaNew := fun i => clampSigma (update iteration s.sigma i)
  if iteration % cfg.checkEvery = 0 then
    let newlyConverged := fun i =>
      decide (|modelPrices i - s.previousPrices i| < cfg.convergenceThreshold)
        && !s.converged i
    { sigma := sigmaNew
      converged := fun i => s.converged i || newlyConverged i
      iterationsTaken := fun i =>
        if newlyConverged i then iteration else s.iterationsTaken i
      previousPrices := modelPrices }
  else
    { s with sigma := sigmaNew }

/-- The `for iteration in range(max_iterations)` loop with the early-stop
`break` (lines 119–168), as a fuel recursion.  Returns the final state and
`some b` when the loop broke out at iteration `b` (all converged at the
check of round `b`), `none` when it ran out of iterations. -/
def loopGo {n : ℕ} (priceFn : (Fin n → ℚ) → Fin n → ℚ)
    (update : ℕ → (Fin n → ℚ) → Fin n → ℚ) (cfg : LoopConfig) :
    ℕ → ℕ → LoopState n → LoopState n × Option ℕ
  | _, 0, s => (s, none)
  | iteration, fuel + 1, s =>
    let s' := roundStep priceFn update cfg iteration s
    if iteration % cfg.checkEvery = 0 ∧ allConverged s' = true then
      (s', some iteration)
    else
      loopGo priceFn update cfg (iteration + 1) fuel s'

/-- The whole loop of `solve_batch_iv`, from iteration `0` with fuel
`max_iterations`, started on the freshly initialized state. -/
def runLoop {n : ℕ} (priceFn : (Fin n → ℚ) → Fin n → ℚ)
    (update : ℕ → (Fin n → ℚ) → Fin n → ℚ) (cfg : LoopConfig) :
    LoopState n × Option ℕ :=
  loopGo priceFn update cfg 0 cfg.maxIterations (initState n cfg)

/-- State after `k` completed rounds, had the loop been run without the
early-stop `break` (the break only truncates the trajectory, the per-round
transition is deterministic). -/
def stateAt {n : ℕ} (priceFn : (Fin n → ℚ) → Fin n → ℚ)
    (update : ℕ → (Fin n → ℚ) → Fin n → ℚ) (cfg : LoopConfig) :
    ℕ → LoopState n
  | 0 => initState n cfg
  | k + 1 => roundStep priceFn update cfg k (stateAt priceFn update cfg k)

/-- Global outcome of the loop, per the spec's names: the `break` path of
the source prints "All options converged", the `else` path of the `for`
prints "Reached max iterations". -/
inductive LoopOutcome where
  | AllConverged : LoopOutcome
  | MaxIterationsReached : LoopOutcome
deriving DecidableEq

/-- Outcome read off from the loop's second component. -/
def outcomeOf : Option ℕ → LoopOutcome
  | some _ => LoopOutcome.AllConverged
  | none => LoopOutcome.MaxIterationsReached

/-- Round `b` is a convergence-check boundary at which, after the marking of
round `b`, every element is flagged converged — exactly the condition of the
early-stop `break` at lines 142/163. -/
def stopsAt {n : ℕ} (priceFn : (Fin n → ℚ) → Fin n → ℚ)
    (update : ℕ → (Fin n → ℚ) → Fin n → ℚ) (cfg : LoopConfig) (b : ℕ) : Prop :=
  b % cfg.checkEvery = 0 ∧ allConverged (stateAt priceFn update cfg (b + 1)) = true

instance stopsAtDecidable {n : ℕ} (priceFn : (Fin n → ℚ) → Fin n → ℚ)
    (update : ℕ → (Fin n → ℚ) → Fin n → ℚ) (cfg : LoopConfig) :
    DecidablePred (stopsAt priceFn update cfg) := fun b => by
  unfold stopsAt; infer_instance

/-- The dictionary returned by `solve_batch_iv` (lines 199–206). -/
structure CalibrationResult (n : ℕ) where
  sigma : Fin n → ℚ
  converged : Fin n → Bool
  iterations : Fin n → ℕ
  finalPrices : Fin n → ℚ
  pricingErrors : Fin n → ℚ
  mae : ℚ

/-- Final statistics (lines 180–183) and result assembly (lines 199–206):
prices recomputed from the final `sigma`, absolute errors against the market
prices, and their mean.  Being a plain functional value, the result is built
exactly once and cannot be mutated afterwards. -/
def finalize {n : ℕ} (priceFn : (Fin n → ℚ) → Fin n → ℚ)
    (marketPrices : Fin n → ℚ) (s : LoopState n) : CalibrationResult n :=
  let finalPrices := priceFn s.sigma
  let pricingErrors := fun i => |finalPrices i - marketPrices i|
  { sigma := s.sigma
    converged := s.converged
    iterations := s.iterationsTaken
    finalPrices := finalPrices
    pricingErrors := pricingErrors
    mae := (∑ i, pricingErrors i) / (n : ℚ) }

/-- `solve_batch_iv` end to end: run the loop, then assemble the result. -/
def solveBatchIV {n : ℕ} (priceFn : (Fin n → ℚ) → Fin n → ℚ)
    (update : ℕ → (Fin n → ℚ) → Fin n → ℚ) (cfg : LoopConfig)
    (marketPrices : Fin n → ℚ) : CalibrationResult n × LoopOutcome :=
  let r := runLoop priceFn update cfg
  (finalize priceFn marketPrices r.1, outcomeOf r.2)

/-! ## NaN-propagation model of one round

The source performs no finiteness check anywhere in the loop body
(lines 121–151).  To express claims about non-finite losses or gradients
we re-embed one round with tensor entries in `Option ℚ`, where `none`
stands for a non-finite float (NaN or ±Inf).  The `Val` operations mirror
IEEE-754/torch semantics for the operations the round uses: arithmetic
propagates non-finite values, `torch.clamp` propagates NaN, and any
comparison with NaN is `False`. -/

/-- A float32 value: `some q` a finite value, `none` a non-finite one. -/
def Val : Type := Option ℚ

/-- Subtraction, propagating non-finite operands. -/
def valSub : Val → Val → Val
  | some x, some y => some (x - y)
  | _, _ => none

/-- Absolute value, propagating non-finite operands. -/
def valAbs : Val → Val
  | some x => some |x|
  | none => none

/-- The comparison `price_change < convergence_threshold`: false when the
left operand is NaN (IEEE comparison semantics). -/
def valLt (a : Val) (c : ℚ) : Bool :=
  match a with
  | some x => decide (x < c)
  | none => false

/-- `torch.clamp(x, 0.001, 5.0)` on a possibly non-finite value: torch's
clamp propagates NaN. -/
def clampValSigma : Val → Val
  | some x => some (clampSigma x)
  | none => none

/-- Loop state with possibly non-finite tensor entries. -/
structure LoopStateVal (n : ℕ) where
  sigma : Fin n → Val
  converged : Fin n → Bool
  iterationsTaken : Fin n → ℕ
  previousPrices : Fin n → Val

/-- Initial state, as in `initState` (all initial entries are finite). -/
def initStateVal (n : ℕ) (cfg : LoopConfig) : LoopStateVal n :=
  { sigma := fun _ => some cfg.initialSigma
    converged := fun _ => false
    iterationsTaken := fun _ => 0
    previousPrices := fun _ => some 0 }

/-- One round of the loop over possibly non-finite values, translated from
lines 121–151 exactly as `roundStep`: the new `sigma` is the clamped
optimizer output for EVERY element, with no finiteness guard. -/
def roundStepVal {n : ℕ} (priceFn : (Fin n → Val) → Fin n → Val)
    (update : ℕ → (Fin n → Val) → Fin n → Val)
    (cfg : LoopConfig) (iteration : ℕ) (s : LoopStateVal n) : LoopStateVal n :=
  let modelPrices := priceFn s.sigma
  let sigmaNew := fun i => clampValSigma (update iteration s.sigma i)
  if iteration % cfg.checkEvery = 0 then
    let newlyConverged := fun i =>
      valLt (valAbs (valSub (modelPrices i) (s.previousPrices i)))
          cfg.convergenceThreshold
        && !s.converged i
    { sigma := sigmaNew
      converged := fun i => s.converged i || newlyConverged i
      iterationsTaken := fun i =>
        if newlyConverged i then iteration else s.iterationsTaken i
      previousPrices := modelPrices }
  else
    { s with sigma := sigmaNew }

/-- The loop over possibly non-finite values (same shape as `loopGo`). -/
def loopGoVal {n : ℕ} (priceFn : (Fin n → Val) → Fin n → Val)
    (update : ℕ → (Fin n → Val) → Fin n → Val) (cfg : LoopConfig) :
    ℕ → ℕ → LoopStateVal n → LoopStateVal n × Option ℕ
  | _, 0, s => (s, none)
  | iteration, fuel + 1, s =>
    let s' := roundStepVal priceFn update cfg iteration s
    if iteration % cfg.checkEvery = 0 ∧ (List.finRange n).all s'.converged = true then
      (s', some iteration)
    else
      loopGoVal priceFn update cfg (iteration + 1) fuel s'

/-- The whole loop over possibly non-finite values. -/
def runLoopVal {n : ℕ} (priceFn : (Fin n → Val) → Fin n → Val)
    (update : ℕ → (Fin n → Val) → Fin n → Val) (cfg : LoopConfig) :
    LoopStateVal n × Option ℕ :=
  loopGoVal priceFn update cfg 0 cfg.maxIterations (initStateVal n cfg)

/-- State after `k` completed rounds of the loop over possibly non-finite
values (the break only truncates the trajectory). -/
def stateAtVal {n : ℕ} (priceFn : (Fin n → Val) → Fin n → Val)
    (update : ℕ → (Fin n → Val) → Fin n → Val) (cfg : LoopConfig) :
    ℕ → LoopStateVal n
  | 0 => initStateVal n cfg
  | k + 1 => roundStepVal priceFn update cfg k (stateAtVal priceFn update cfg k)

/-- The test "this volatility lies within [0.001, 5.0]" on a possibly
non-finite float: a non-finite value (NaN) compares false against any
bound, so only a finite value inside the bounds passes. -/
def valInClampRange : Val → Bool
  | some q => decide (1/1000 ≤ q ∧ q ≤ 5)
  | none => false

/-! ## The Adam optimizer step

`solve_batch_iv` delegates the parameter update to `torch.optim.Adam`
(line 101), an external library.  Modelled from the spec: the
per-element Adam update rule of §4.2 — `m ← β₁m + (1−β₁)g`,
`v ← β₂v + (1−β₂)g²`, bias corrections `m̂ = m/(1−β₁ᵗ)`,
`v̂ = v/(1−β₂ᵗ)`, `params ← params − lr·m̂/(sqrt(v̂)+eps)` — with one
shared step counter `t`, incremented once per call before use. -/

/-- Optimizer state: per-element first and second moments plus the shared
step counter, all zero-initialized. -/
structure AdamState (n : ℕ) where
  m : Fin n → ℝ
  v : Fin n → ℝ
  t : ℕ

/-- Zero-initialized Adam state. -/
def adamInit (n : ℕ) : AdamState n :=
  { m := fun _ => 0, v := fun _ => 0, t := 0 }

/-- Modelled from the spec: one call of `optimizer.step()` for the Adam
variant — updates every element of the batch from the gradient `g`,
increments the shared step counter by one, and applies no clamping. -/
noncomputable def adamStep {n : ℕ} (lr beta1 beta2 eps : ℝ)
    (g params : Fin n → ℝ) (s : AdamState n) : AdamState n × (Fin n → ℝ) :=
  let t := s.t + 1
  let m := fun i => beta1 * s.m i + (1 - beta1) * g i
  let v := fun i => beta2 * s.v i + (1 - beta2) * g i ^ 2
  let mHat := fun i => m i / (1 - beta1 ^ t)
  let vHat := fun i => v i / (1 - beta2 ^ t)
  (⟨m, v, t⟩, fun i => params i - lr * mHat i / (Real.sqrt (vHat i) + eps))

/-! ## The Black–Scholes pricer

Embedding of `AdaptiveIVSolver.black_scholes` (lines 27–40) over `ℝ`.
`Phi` stands for `self.norm.cdf`, the standard normal CDF provided by the
external `torch.distributions.Normal(0, 1)`; it is kept abstract and
characterized by hypotheses in the theorems (the true CDF is strictly
monotone, bounded by 0 and 1, and has value 1/2 at 0). -/

/-- Line 32 of the source: `sqrt_T = torch.sqrt(T + 1e-10)` — the epsilon
is added to `T` under the square root. -/
noncomputable def sqrtT (T : ℝ) : ℝ := Real.sqrt (T + 1/10^10)

/-- The denominator of `d1` at line 34: `sigma * sqrt_T + 1e-10`. -/
noncomputable def d1denom (sigma T : ℝ) : ℝ := sigma * sqrtT T + 1/10^10

/-- Line 34: `d1 = (log(S/K) + (r + 0.5*sigma**2)*T) / (sigma*sqrt_T + 1e-10)`. -/
noncomputable def d1 (S K T r sigma : ℝ) : ℝ :=
  (Real.log (S / K) + (r + 1/2 * sigma ^ 2) * T) / d1denom sigma T

/-- Line 35: `d2 = d1 - sigma * sqrt_T`. -/
noncomputable def d2 (S K T r sigma : ℝ) : ℝ :=
  d1 S K T r sigma - sigma * sqrtT T

/-- Lines 37–40 of the source: the call and put values and the
`torch.where(is_call, call_price, put_price)` selection, for one element. -/
noncomputable def blackScholes (Phi : ℝ → ℝ) (S K T r sigma : ℝ)
    (isCall : Bool) : ℝ :=
  let callPrice := S * Phi (d1 S K T r sigma)
    - K * Real.exp (-r * T) * Phi (d2 S K T r sigma)
  let putPrice := K * Real.exp (-r * T) * Phi (-d2 S K T r sigma)
    - S * Phi (-d1 S K T r sigma)
  if isCall then callPrice else putPrice

/-- The stabilized square root as the spec's words describe it: the epsilon
added to `sqrt(T)` itself ("add a small epsilon (1e-10) to `sqrt(T)`
before using it as a denominator").  Kept for comparison with `sqrtT`,
which is what the source computes. -/
noncomputable def sqrtTSpec (T : ℝ) : ℝ := Real.sqrt T + 1/10^10

/-- The `d1` denominator as the claim words it: `sigma·sqrt(T) + 1e-10`,
with the bare `sqrt(T)`.  Kept for comparison with `d1denom`. -/
noncomputable def d1denomSpec (sigma T : ℝ) : ℝ := sigma * Real.sqrt T + 1/10^10

/-- One round as the spec's words describe the convergence check: the model
prices are RECOMPUTED from the just-updated (and clamped) volatility vector
before being compared with the checkpoint.  Kept for comparison with
`roundStep`, which is what the source does (it reuses the prices computed
before `optimizer.step()`). -/
def roundStepSpecRecompute {n : ℕ} (priceFn : (Fin n → ℚ) → Fin n → ℚ)
    (update : ℕ → (Fin n → ℚ) → Fin n → ℚ)
    (cfg : LoopConfig) (iteration : ℕ) (s : LoopState n) : LoopState n :=
  let sigmaNew := fun i => clampSigma (update iteration s.sigma i)
  let modelPrices := priceFn sigmaNew
  if iteration % cfg.checkEvery = 0 then
    let newlyConverged := fun i =>
      decide (|modelPrices i - s.previousPrices i| < cfg.convergenceThreshold)
        && !s.converged i
    { sigma := sigmaNew
      converged := fun i => s.converged i || newlyConverged i
      iterationsTaken := fun i =>
        if newlyConverged i then iteration else s.iterationsTaken i
      previousPrices := modelPrices }
  else
    { s with sigma := sigmaNew }

/-- Number of loop rounds executed by a run of the `Val` loop: up to and
including the breaking round, or all of `max_iterations`. -/
def roundsExecutedVal {n : ℕ} (cfg : LoopConfig) (r : LoopStateVal n × Option ℕ) : ℕ :=
  match r.2 with
  | some b => b + 1
  | none => cfg.maxIterations

/-! ## Concrete single-element batches

Small concrete instances used to witness or refute the claims on explicit
inputs. -/

/-- A batch of one contract whose model price is identically zero whatever
the volatility (a flat pricing function with zero gradient). -/
def priceConstZero : (Fin 1 → ℚ) → Fin 1 → ℚ := fun _ _ => 0

/-- A pricing function that passes the volatility through: the model price
of the single contract equals its current sigma. -/
def pricePass : (Fin 1 → ℚ) → Fin 1 → ℚ := fun sigma => sigma

/-- An optimizer update that leaves sigma unchanged (zero gradient). -/
def updateId : ℕ → (Fin 1 → ℚ) → Fin 1 → ℚ := fun _ sigma => sigma

/-- An optimizer update that moves sigma up by one each round. -/
def updateShift : ℕ → (Fin 1 → ℚ) → Fin 1 → ℚ := fun _ sigma i => sigma i + 1

/-- A configuration with a large convergence threshold (1/2), otherwise the
defaults: at the round-0 check the pre-update price 0.4 is within the
threshold of the zero checkpoint while the post-update price 1.4 is not. -/
def bigThresholdConfig : LoopConfig :=
  { initialSigma := 2/5
    maxIterations := 2000
    convergenceThreshold := 1/2
    checkEvery := 10 }

/-- The default configuration with `max_iterations` lowered to 2, so that a
non-converging batch exhausts the iteration budget quickly. -/
def maxTwoConfig : LoopConfig :=
  { initialSigma := 2/5
    maxIterations := 2
    convergenceThreshold := 1/10000
    checkEvery := 10 }

/-- Pass-through pricing over possibly non-finite values. -/
def priceValPass : (Fin 1 → Val) → Fin 1 → Val := fun sigma => sigma

/-- An optimizer update producing a non-finite value: this is what
`optimizer.step()` leaves in `sigma` once the loss or the gradient is
non-finite (NaN propagates through the Adam moment updates into the
parameter). -/
def updateValNaN : ℕ → (Fin 1 → Val) → Fin 1 → Val := fun _ _ _ => none

/-- An optimizer update over possibly non-finite values that leaves sigma
unchanged (finite output whenever the current sigma is finite). -/
def updateValId : ℕ → (Fin 1 → Val) → Fin 1 → Val := fun _ sigma => sigma

/-! ## Basic lemmas about one round and the trajectory -/

theorem clampSigma_bounds (x : ℚ) : 1/1000 ≤ clampSigma x ∧ clampSigma x ≤ 5 := by
  unfold clampSigma
  constructor
  · exact le_min (by norm_num) (le_max_left _ _)
  · exact min_le_left _ _

theorem roundStep_sigma {n : ℕ} (priceFn : (Fin n → ℚ) → Fin n → ℚ)
    (update : ℕ → (Fin n → ℚ) → Fin n → ℚ) (cfg : LoopConfig)
    (it : ℕ) (s : LoopState n) (i : Fin n) :
    (roundStep priceFn update cfg it s).sigma i = clampSigma (update it s.sigma i) := by
  unfold roundStep
  split <;> rfl

theorem roundStep_check {n : ℕ} (priceFn : (Fin n → ℚ) → Fin n → ℚ)
    (update : ℕ → (Fin n → ℚ) → Fin n → ℚ) (cfg : LoopConfig)
    (it : ℕ) (s : LoopState n) (hit : it % cfg.checkEvery = 0) :
    roundStep priceFn update cfg it s =
      { sigma := fun i => clampSigma (update it s.sigma i)
        converged := fun i => s.converged i ||
          (decide (|priceFn s.sigma i - s.previousPrices i| < cfg.convergenceThreshold)
            && !s.converged i)
        iterationsTaken := fun i =>
          if decide (|priceFn s.sigma i - s.previousPrices i| < cfg.convergenceThreshold)
              && !s.converged i
          then it else s.iterationsTaken i
        previousPrices := fun i => priceFn s.sigma i } := by
  simp only [roundStep, if_pos hit]

theorem roundStep_not_check {n : ℕ} (priceFn : (Fin n → ℚ) → Fin n → ℚ)
    (update : ℕ → (Fin n → ℚ) → Fin n → ℚ) (cfg : LoopConfig)
    (it : ℕ) (s : LoopState n) (hit : ¬ it % cfg.checkEvery = 0) :
    roundStep priceFn update cfg it s =
      { s with sigma := fun i => clampSigma (update it s.sigma i) } := by
  simp only [roundStep, if_neg hit]

theorem roundStep_converged_mono {n : ℕ} (priceFn : (Fin n → ℚ) → Fin n → ℚ)
    (update : ℕ → (Fin n → ℚ) → Fin n → ℚ) (cfg : LoopConfig)
    (it : ℕ) (s : LoopState n) (i : Fin n) (h : s.converged i = true) :
    (roundStep priceFn update cfg it s).converged i = true := by
  by_cases hit : it % cfg.checkEvery = 0
  · rw [roundStep_check priceFn update cfg it s hit]
    simp [h]
  · rw [roundStep_not_check priceFn update cfg it s hit]
    exact h

theorem roundStep_iterations_of_converged {n : ℕ}
    (priceFn : (Fin n → ℚ) → Fin n → ℚ)
    (update : ℕ → (Fin n → ℚ) → Fin n → ℚ) (cfg : LoopConfig)
    (it : ℕ) (s : LoopState n) (i : Fin n) (h : s.converged i = true) :
    (roundStep priceFn update cfg it s).iterationsTaken i = s.iterationsTaken i := by
  by_cases hit : it % cfg.checkEvery = 0
  · rw [roundStep_check priceFn update cfg it s hit]
    simp [h]
  · rw [roundStep_not_check priceFn update cfg it s hit]

theorem stateAt_succ {n : ℕ} (priceFn : (Fin n → ℚ) → Fin n → ℚ)
    (update : ℕ → (Fin n → ℚ) → Fin n → ℚ) (cfg : LoopConfig) (k : ℕ) :
    stateAt priceFn update cfg (k + 1) =
      roundStep priceFn update cfg k (stateAt priceFn update cfg k) := rfl

theorem stateAt_converged_mono {n : ℕ} (priceFn : (Fin n → ℚ) → Fin n → ℚ)
    (update : ℕ → (Fin n → ℚ) → Fin n → ℚ) (cfg : LoopConfig) (i : Fin n)
    (k k' : ℕ) (hk : k ≤ k')
    (h : (stateAt priceFn update cfg k).converged i = true) :
    (stateAt priceFn update cfg k').converged i = true := by
  induction k' , hk using Nat.le_induction with
  | base => exact h
  | succ k' _ ih =>
    rw [stateAt_succ]
    exact roundStep_converged_mono priceFn update cfg k' _ i ih

/-! ## Characterization of the loop with its early-stop break -/

theorem loopGo_of_no_stop {n : ℕ} (priceFn : (Fin n → ℚ) → Fin n → ℚ)
    (update : ℕ → (Fin n → ℚ) → Fin n → ℚ) (cfg : LoopConfig) (fuel : ℕ) :
    ∀ iter, (∀ b, iter ≤ b → b < iter + fuel → ¬ stopsAt priceFn update cfg b) →
    loopGo priceFn update cfg iter fuel (stateAt priceFn update cfg iter) =
      (stateAt priceFn update cfg (iter + fuel), none) := by
  induction fuel with
  | zero =>
    intro iter _
    simp [loopGo]
  | succ fuel ih =>
    intro iter h
    show (if iter % cfg.checkEvery = 0 ∧
          allConverged (roundStep priceFn update cfg iter (stateAt priceFn update cfg iter)) = true
        then _ else loopGo priceFn update cfg (iter + 1) fuel
          (roundStep priceFn update cfg iter (stateAt priceFn update cfg iter))) = _
    have hneg : ¬ (iter % cfg.checkEvery = 0 ∧
        allConverged (roundStep priceFn update cfg iter (stateAt priceFn update cfg iter)) = true) :=
      h iter (le_refl iter) (by omega)
    rw [if_neg hneg]
    rw [show roundStep priceFn update cfg iter (stateAt priceFn update cfg iter) =
        stateAt priceFn update cfg (iter + 1) from rfl]
    rw [ih (iter + 1) (fun b hb hb' => h b (by omega) (by omega))]
    rw [show iter + 1 + fuel = iter + (fuel + 1) by omega]

theorem loopGo_of_stop {n : ℕ} (priceFn : (Fin n → ℚ) → Fin n → ℚ)
    (update : ℕ → (Fin n → ℚ) → Fin n → ℚ) (cfg : LoopConfig) (fuel : ℕ) :
    ∀ iter b, iter ≤ b → b < iter + fuel → stopsAt priceFn update cfg b →
    (∀ b', iter ≤ b' → b' < b → ¬ stopsAt priceFn update cfg b') →
    loopGo priceFn update cfg iter fuel (stateAt priceFn update cfg iter) =
      (stateAt priceFn update cfg (b + 1), some b) := by
  induction fuel with
  | zero =>
    intro iter b hib hb _ _
    omega
  | succ fuel ih =>
    intro iter b hib hb hstop hmin
    show (if iter % cfg.checkEvery = 0 ∧
          allConverged (roundStep priceFn update cfg iter (stateAt priceFn update cfg iter)) = true
        then (roundStep priceFn update cfg iter (stateAt priceFn update cfg iter), some iter)
        else loopGo priceFn update cfg (iter + 1) fuel
          (roundStep priceFn update cfg iter (stateAt priceFn update cfg iter))) = _
    rcases Nat.eq_or_lt_of_le hib with heq | hlt
    · subst heq
      have hpos : iter % cfg.checkEvery = 0 ∧
          allConverged (roundStep priceFn update cfg iter (stateAt priceFn update cfg iter)) = true :=
        hstop
      rw [if_pos hpos]
      rfl
    · have hneg : ¬ (iter % cfg.checkEvery = 0 ∧
          allConverged (roundStep priceFn update cfg iter (stateAt priceFn update cfg iter)) = true) :=
        hmin iter (le_refl iter) hlt
      rw [if_neg hneg]
      rw [show roundStep priceFn update cfg iter (stateAt priceFn update cfg iter) =
          stateAt priceFn update cfg (iter + 1) from rfl]
      exact ih (iter + 1) b hlt (by omega) hstop (fun b' hb' hb'' => hmin b' (by omega) hb'')

theorem loopGo_some_lt {n : ℕ} (priceFn : (Fin n → ℚ) → Fin n → ℚ)
    (update : ℕ → (Fin n → ℚ) → Fin n → ℚ) (cfg : LoopConfig) (fuel : ℕ) :
    ∀ iter s b s', loopGo priceFn update cfg iter fuel s = (s', some b) →
    b < iter + fuel := by
  induction fuel with
  | zero =>
    intro iter s b s' h
    simp [loopGo] at h
  | succ fuel ih =>
    intro iter s b s' h
    rw [show loopGo priceFn update cfg iter (fuel + 1) s =
        (if iter % cfg.checkEvery = 0 ∧
            allConverged (roundStep priceFn update cfg iter s) = true
          then (roundStep priceFn update cfg iter s, some iter)
          else loopGo priceFn update cfg (iter + 1) fuel
            (roundStep priceFn update cfg iter s)) from rfl] at h
    by_cases hc : iter % cfg.checkEvery = 0 ∧
        allConverged (roundStep priceFn update cfg iter s) = true
    · rw [if_pos hc] at h
      have : b = iter := by
        have := congrArg Prod.snd h
        simpa using this.symm
      omega
    · rw [if_neg hc] at h
      have := ih (iter + 1) _ b s' h
      omega

theorem allConverged_iff {n : ℕ} (s : LoopState n) :
    allConverged s = true ↔ ∀ i, s.converged i = true := by
  unfold allConverged
  rw [List.all_eq_true]
  constructor
  · intro h i
    exact h i (List.mem_finRange i)
  · intro h i _
    exact h i

theorem stateAt_one_iterations {n : ℕ} (priceFn : (Fin n → ℚ) → Fin n → ℚ)
    (update : ℕ → (Fin n → ℚ) → Fin n → ℚ) (cfg : LoopConfig) (i : Fin n) :
    (stateAt priceFn update cfg 1).iterationsTaken i = 0 := by
  rw [show (1 : ℕ) = 0 + 1 from rfl, stateAt_succ,
    roundStep_check priceFn update cfg 0 _ (Nat.zero_mod cfg.checkEvery)]
  dsimp [initState]
  split <;> rfl

theorem stateAtVal_succ {n : ℕ} (priceFn : (Fin n → Val) → Fin n → Val)
    (update : ℕ → (Fin n → Val) → Fin n → Val) (cfg : LoopConfig) (k : ℕ) :
    stateAtVal priceFn update cfg (k + 1) =
      roundStepVal priceFn update cfg k (stateAtVal priceFn update cfg k) := rfl

theorem roundStepVal_sigma {n : ℕ} (priceFn : (Fin n → Val) → Fin n → Val)
    (update : ℕ → (Fin n → Val) → Fin n → Val) (cfg : LoopConfig)
    (it : ℕ) (s : LoopStateVal n) (i : Fin n) :
    (roundStepVal priceFn update cfg it s).sigma i =
      clampValSigma (update it s.sigma i) := by
  unfold roundStepVal
  split <;> rfl

/-- Counterexample to C3 as stated: the claim asserts that after every
round's update and clamp each element's volatility lies within
[0.001, 5.0], at every point observable between rounds.  The clamp of
line 139 is `torch.clamp`, which propagates a non-finite value: in the
round below the optimizer output for the only element is non-finite
(`none` models the NaN that a non-finite loss or gradient leaves in
`sigma`), and the between-rounds state after round 0 holds that non-finite
volatility — which is not within [0.001, 5.0]. -/
theorem c3_counterexample :
    (stateAtVal priceValPass updateValNaN defaultConfig 1).sigma
      ⟨0, Nat.zero_lt_one⟩ = none
    ∧ valInClampRange ((stateAtVal priceValPass updateValNaN defaultConfig 1).sigma
      ⟨0, Nat.zero_lt_one⟩) = false := by
  have h : (stateAtVal priceValPass updateValNaN defaultConfig 1).sigma
      ⟨0, Nat.zero_lt_one⟩ = none := by
    simp [stateAtVal, roundStepVal, initStateVal, defaultConfig, priceValPass,
      updateValNaN, clampValSigma]
  exact ⟨h, by rw [h]; rfl⟩

/-- C3 amended: for every round of the calibration loop and every batch
element, WHENEVER that round's optimizer output for the element is a finite
value `q`, the element's volatility immediately after the update and clamp —
i.e. in the state observable between rounds — is the finite value
`clamp(q, 0.001, 5.0)` and lies within [0.001, 5.0]; a non-finite optimizer
output escapes the bound, because the clamp propagates it. -/
theorem c3_sigma_clamped_when_finite {n : ℕ}
    (priceFn : (Fin n → Val) → Fin n → Val)
    (update : ℕ → (Fin n → Val) → Fin n → Val) (cfg : LoopConfig)
    (k : ℕ) (i : Fin n) (q : ℚ)
    (h : update k (stateAtVal priceFn update cfg k).sigma i = some q) :
    (stateAtVal priceFn update cfg (k + 1)).sigma i = some (clampSigma q)
    ∧ 1/1000 ≤ clampSigma q ∧ clampSigma q ≤ 5
    ∧ valInClampRange ((stateAtVal priceFn update cfg (k + 1)).sigma i) = true := by
  have hs : (stateAtVal priceFn update cfg (k + 1)).sigma i = some (clampSigma q) := by
    rw [stateAtVal_succ, roundStepVal_sigma, h]
    rfl
  have hb := clampSigma_bounds q
  refine ⟨hs, hb.1, hb.2, ?_⟩
  rw [hs]
  show decide (1/1000 ≤ clampSigma q ∧ clampSigma q ≤ 5) = true
  exact decide_eq_true ⟨hb.1, hb.2⟩

/-- Witness for C3's amended statement: the identity update keeps the
initial finite sigma 2/5, and after round 0 the between-rounds volatility
is its clamp, inside [0.001, 5.0]. -/
theorem c3_sigma_clamped_when_finite_witness :
    (stateAtVal priceValPass updateValId defaultConfig 1).sigma
      ⟨0, Nat.zero_lt_one⟩ = some (clampSigma (2/5))
    ∧ 1/1000 ≤ clampSigma (2/5) ∧ clampSigma (2/5) ≤ 5
    ∧ valInClampRange ((stateAtVal priceValPass updateValId defaultConfig 1).sigma
      ⟨0, Nat.zero_lt_one⟩) = true :=
  c3_sigma_clamped_when_finite priceValPass updateValId defaultConfig 0
    ⟨0, Nat.zero_lt_one⟩ (2/5) rfl

/-- C4: the per-element converged flag is monotonic over the rounds of a
run — once true it stays true; and `converged_at_iteration` is assigned
exactly once: it never changes after the element is converged, it changes
in a round only if that round is the element's conversion round, and at the
conversion round it is set to that round's iteration index. -/
theorem c4_converged_monotonic_iteration_once {n : ℕ}
    (priceFn : (Fin n → ℚ) → Fin n → ℚ)
    (update : ℕ → (Fin n → ℚ) → Fin n → ℚ) (cfg : LoopConfig) (i : Fin n) :
    (∀ k k', k ≤ k' → (stateAt priceFn update cfg k).converged i = true →
      (stateAt priceFn update cfg k').converged i = true)
    ∧ (∀ k, (stateAt priceFn update cfg k).converged i = true →
      (stateAt priceFn update cfg (k + 1)).iterationsTaken i =
        (stateAt priceFn update cfg k).iterationsTaken i)
    ∧ (∀ k, (stateAt priceFn update cfg (k + 1)).converged i = true →
      (stateAt priceFn update cfg k).converged i = false →
      (stateAt priceFn update cfg (k + 1)).iterationsTaken i = k)
    ∧ (∀ k, (stateAt priceFn update cfg (k + 1)).converged i = false →
      (stateAt priceFn update cfg (k + 1)).iterationsTaken i =
        (stateAt priceFn update cfg k).iterationsTaken i) := by
  refine ⟨stateAt_converged_mono priceFn update cfg i, ?_, ?_, ?_⟩
  · intro k h
    rw [stateAt_succ]
    exact roundStep_iterations_of_converged priceFn update cfg k _ i h
  · intro k htrue hfalse
    by_cases hit : k % cfg.checkEvery = 0
    · rw [stateAt_succ, roundStep_check priceFn update cfg k _ hit] at htrue ⊢
      dsimp at htrue ⊢
      rw [hfalse] at htrue ⊢
      simp only [Bool.false_or, Bool.not_false, Bool.and_true] at htrue ⊢
      rw [if_pos htrue]
    · rw [stateAt_succ, roundStep_not_check priceFn update cfg k _ hit] at htrue
      rw [htrue] at hfalse
      exact absurd hfalse (by simp)
  · intro k hfalse
    by_cases hit : k % cfg.checkEvery = 0
    · rw [stateAt_succ, roundStep_check priceFn update cfg k _ hit] at hfalse ⊢
      dsimp at hfalse ⊢
      rcases Bool.or_eq_false_iff.mp hfalse with ⟨h1, h2⟩
      rw [h2]
      rfl
    · rw [stateAt_succ, roundStep_not_check priceFn update cfg k _ hit]

/-- Witness for C4 on a concrete batch: the single contract of
`priceConstZero` converges at round 0; the flag is still set two rounds
later, and the recorded iteration index is and stays 0. -/
theorem c4_converged_monotonic_iteration_once_witness :
    (stateAt priceConstZero updateId defaultConfig 2).converged
      ⟨0, Nat.zero_lt_one⟩ = true ∧
    (stateAt priceConstZero updateId defaultConfig 2).iterationsTaken
      ⟨0, Nat.zero_lt_one⟩ =
      (stateAt priceConstZero updateId defaultConfig 1).iterationsTaken
        ⟨0, Nat.zero_lt_one⟩ := by
  have h1 : (stateAt priceConstZero updateId defaultConfig 1).converged
      ⟨0, Nat.zero_lt_one⟩ = true := by
    simp [stateAt, roundStep, initState, defaultConfig, priceConstZero, updateId]
  constructor
  · exact (c4_converged_monotonic_iteration_once priceConstZero updateId
      defaultConfig ⟨0, Nat.zero_lt_one⟩).1 1 2 (by omega) h1
  · exact (c4_converged_monotonic_iteration_once priceConstZero updateId
      defaultConfig ⟨0, Nat.zero_lt_one⟩).2.1 1 h1

/-- C10: checkpoint prices start at zero and a convergence check runs at
round 0, so an element is marked converged at round 0 exactly when the
absolute value of its round-0 model price (computed from the initial sigma)
is below the threshold; any element not converged at round 0 can first be
marked no earlier than round `check_every`; an element that is not
converged has iteration count 0, just like one that converged at round 0 —
the field cannot distinguish them. -/
theorem c10_round_zero_check_and_zero_iterations {n : ℕ}
    (priceFn : (Fin n → ℚ) → Fin n → ℚ)
    (update : ℕ → (Fin n → ℚ) → Fin n → ℚ) (cfg : LoopConfig) (i : Fin n) :
    (initState n cfg).previousPrices i = 0
    ∧ ((stateAt priceFn update cfg 1).converged i = true ↔
        |priceFn (initState n cfg).sigma i| < cfg.convergenceThreshold)
    ∧ (∀ k, (stateAt priceFn update cfg (k + 1)).converged i = true →
        (stateAt priceFn update cfg k).converged i = false →
        k = 0 ∨ cfg.checkEvery ≤ k)
    ∧ (∀ k, (stateAt priceFn update cfg k).converged i = false →
        (stateAt priceFn update cfg k).iterationsTaken i = 0)
    ∧ ((stateAt priceFn update cfg 1).converged i = true →
        ∀ k, 1 ≤ k → (stateAt priceFn update cfg k).iterationsTaken i = 0) := by
  refine ⟨rfl, ?_, ?_, ?_, ?_⟩
  · have h0 : stateAt priceFn update cfg 0 = initState n cfg := rfl
    rw [show (1 : ℕ) = 0 + 1 from rfl, stateAt_succ, h0,
      roundStep_check priceFn update cfg 0 _ (Nat.zero_mod cfg.checkEvery)]
    simp [initState]
  · intro k htrue hfalse
    by_cases hk : k = 0
    · exact Or.inl hk
    · refine Or.inr ?_
      by_cases hit : k % cfg.checkEvery = 0
      · have hdvd : cfg.checkEvery ∣ k := Nat.dvd_of_mod_eq_zero hit
        exact Nat.le_of_dvd (Nat.pos_of_ne_zero hk) hdvd
      · rw [stateAt_succ, roundStep_not_check priceFn update cfg k _ hit] at htrue
        rw [htrue] at hfalse
        exact absurd hfalse (by simp)
  · intro k
    induction k with
    | zero => intro _; rfl
    | succ k ih =>
      intro hfalse
      have hkfalse : (stateAt priceFn update cfg k).converged i = false := by
        by_contra h
        have := roundStep_converged_mono priceFn update cfg k
          (stateAt priceFn update cfg k) i (Bool.of_not_eq_false h)
        rw [← stateAt_succ] at this
        rw [this] at hfalse
        exact absurd hfalse (by simp)
      by_cases hit : k % cfg.checkEvery = 0
      · rw [stateAt_succ, roundStep_check priceFn update cfg k _ hit] at hfalse ⊢
        dsimp at hfalse ⊢
        rcases Bool.or_eq_false_iff.mp hfalse with ⟨_, h2⟩
        rw [h2]
        dsimp
        exact ih hkfalse
      · rw [stateAt_succ, roundStep_not_check priceFn update cfg k _ hit]
        exact ih hkfalse
  · intro h1 k hk
    induction k with
    | zero => omega
    | succ k ih =>
      by_cases hk1 : 1 ≤ k
      · have hconv : (stateAt priceFn update cfg k).converged i = true :=
          stateAt_converged_mono priceFn update cfg i 1 k hk1 h1
        rw [stateAt_succ,
          roundStep_iterations_of_converged priceFn update cfg k _ i hconv]
        exact ih hk1
      · have hk0 : k = 0 := by omega
        subst hk0
        exact stateAt_one_iterations priceFn update cfg i

/-- Witness for C10 on a concrete batch: with a model price identically 0
and threshold 1/10000, the single contract is marked converged at round 0,
and its recorded iteration count after two rounds is 0. -/
theorem c10_round_zero_check_and_zero_iterations_witness :
    (stateAt priceConstZero updateId defaultConfig 1).converged
      ⟨0, Nat.zero_lt_one⟩ = true ∧
    (stateAt priceConstZero updateId defaultConfig 2).iterationsTaken
      ⟨0, Nat.zero_lt_one⟩ = 0 := by
  have hconv : (stateAt priceConstZero updateId defaultConfig 1).converged
      ⟨0, Nat.zero_lt_one⟩ = true := by
    refine (c10_round_zero_check_and_zero_iterations priceConstZero updateId
      defaultConfig ⟨0, Nat.zero_lt_one⟩).2.1.mpr ?_
    norm_num [priceConstZero, defaultConfig]
  exact ⟨hconv, (c10_round_zero_check_and_zero_iterations priceConstZero updateId
    defaultConfig ⟨0, Nat.zero_lt_one⟩).2.2.2.2 hconv 2 (by omega)⟩

/-- C2: the loop breaks with `AllConverged` at the first convergence-check
boundary after whose marking every element is converged, executing exactly
that round and no later one; if no such boundary occurs within the budget,
it executes exactly `max_iterations` rounds and ends `MaxIterationsReached`;
and if at some check boundary at or before round 50 every element's price
moved by less than the threshold since the previous checkpoint, the loop
stops `AllConverged` at or before round 50. -/
theorem c2_termination_policy {n : ℕ} (priceFn : (Fin n → ℚ) → Fin n → ℚ)
    (update : ℕ → (Fin n → ℚ) → Fin n → ℚ) (cfg : LoopConfig) :
    (∀ b, b < cfg.maxIterations → stopsAt priceFn update cfg b →
      (∀ b', b' < b → ¬ stopsAt priceFn update cfg b') →
      runLoop priceFn update cfg = (stateAt priceFn update cfg (b + 1), some b) ∧
      outcomeOf (runLoop priceFn update cfg).2 = LoopOutcome.AllConverged)
    ∧ ((∀ b, b < cfg.maxIterations → ¬ stopsAt priceFn update cfg b) →
      runLoop priceFn update cfg =
        (stateAt priceFn update cfg cfg.maxIterations, none) ∧
      outcomeOf (runLoop priceFn update cfg).2 = LoopOutcome.MaxIterationsReached)
    ∧ (∀ b, b ≤ 50 → b < cfg.maxIterations → b % cfg.checkEvery = 0 →
      (∀ i, |priceFn (stateAt priceFn update cfg b).sigma i -
          (stateAt priceFn update cfg b).previousPrices i| <
        cfg.convergenceThreshold) →
      ∃ b', b' ≤ 50 ∧ (runLoop priceFn update cfg).2 = some b' ∧
        outcomeOf (runLoop priceFn update cfg).2 = LoopOutcome.AllConverged) := by
  have hrun : runLoop priceFn update cfg =
      loopGo priceFn update cfg 0 cfg.maxIterations (stateAt priceFn update cfg 0) := rfl
  refine ⟨?_, ?_, ?_⟩
  · intro b hb hstop hmin
    have h := loopGo_of_stop priceFn update cfg cfg.maxIterations 0 b
      (Nat.zero_le b) (by omega) hstop (fun b' _ hb' => hmin b' hb')
    rw [hrun, h]
    exact ⟨rfl, rfl⟩
  · intro hno
    have h := loopGo_of_no_stop priceFn update cfg cfg.maxIterations 0
      (fun b _ hb => hno b (by omega))
    rw [hrun, h]
    exact ⟨by rw [Nat.zero_add], rfl⟩
  · intro b hb50 hbmax hbmod hclose
    have hstop : stopsAt priceFn update cfg b := by
      refine ⟨hbmod, (allConverged_iff _).mpr ?_⟩
      intro i
      rw [stateAt_succ, roundStep_check priceFn update cfg b _ hbmod]
      dsimp
      rw [decide_eq_true (hclose i)]
      cases h : (stateAt priceFn update cfg b).converged i <;> rfl
    haveI : DecidablePred (stopsAt priceFn update cfg) :=
      Classical.decPred (stopsAt priceFn update cfg)
    have hex : ∃ b', stopsAt priceFn update cfg b' := ⟨b, hstop⟩
    have hfind : stopsAt priceFn update cfg (Nat.find hex) := Nat.find_spec hex
    have hfindle : Nat.find hex ≤ b := Nat.find_min' hex hstop
    have h := loopGo_of_stop priceFn update cfg cfg.maxIterations 0 (Nat.find hex)
      (Nat.zero_le _) (by omega) hfind
      (fun b' _ hb' => Nat.find_min hex hb')
    refine ⟨Nat.find hex, by omega, ?_, ?_⟩
    · rw [hrun, h]
    · rw [hrun, h]
      rfl

/-- Witness for C2 on concrete batches: the zero-priced contract stops via
the break at round 0 with `AllConverged` (also witnessing the
round-50 early-stop part at boundary 0), and the pass-through contract
with a 2-round budget never converges and ends `MaxIterationsReached`
after exactly 2 rounds. -/
theorem c2_termination_policy_witness :
    (runLoop priceConstZero updateId defaultConfig =
        (stateAt priceConstZero updateId defaultConfig 1, some 0) ∧
      outcomeOf (runLoop priceConstZero updateId defaultConfig).2 =
        LoopOutcome.AllConverged)
    ∧ (runLoop pricePass updateId maxTwoConfig =
        (stateAt pricePass updateId maxTwoConfig 2, none) ∧
      outcomeOf (runLoop pricePass updateId maxTwoConfig).2 =
        LoopOutcome.MaxIterationsReached)
    ∧ (∃ b', b' ≤ 50 ∧ (runLoop priceConstZero updateId defaultConfig).2 = some b' ∧
      outcomeOf (runLoop priceConstZero updateId defaultConfig).2 =
        LoopOutcome.AllConverged) := by
  have hstop0 : stopsAt priceConstZero updateId defaultConfig 0 := by
    constructor
    · norm_num [defaultConfig]
    · simp [stateAt, roundStep, initState, allConverged, defaultConfig,
        priceConstZero, updateId, List.finRange]
  have hnostop : ∀ b, b < maxTwoConfig.maxIterations →
      ¬ stopsAt pricePass updateId maxTwoConfig b := by
    intro b hb
    have hb2 : b < 2 := hb
    interval_cases b
    · rintro ⟨h1, h2⟩
      simp [stateAt, roundStep, initState, allConverged, maxTwoConfig,
        pricePass, updateId, List.finRange] at h2
      rw [abs_of_nonneg (by norm_num : (0:ℚ) ≤ 2/5)] at h2
      norm_num at h2
    · rintro ⟨h1, h2⟩
      norm_num [maxTwoConfig] at h1
  refine ⟨?_, ?_, ?_⟩
  · exact (c2_termination_policy priceConstZero updateId defaultConfig).1 0
      (by norm_num [defaultConfig]) hstop0 (fun b' hb' => absurd hb' (Nat.not_lt_zero b'))
  · exact (c2_termination_policy pricePass updateId maxTwoConfig).2.1 hnostop
  · exact (c2_termination_policy priceConstZero updateId defaultConfig).2.2 0
      (by omega) (by norm_num [defaultConfig]) (by norm_num [defaultConfig])
      (by intro i; norm_num [priceConstZero, stateAt, initState, defaultConfig])

/-- Counterexample to C1 as stated: the claim says the check recomputes the
model prices from the just-updated volatility vector.  On the concrete
round below (price = sigma, update adds 1, threshold 1/2, round 0 from the
initial state), the source's round (`roundStep`, comparing the prices
computed BEFORE the optimizer step: |0.4 − 0| < 1/2) marks the element
converged and checkpoints 2/5, while a round following the claim's words
(`roundStepSpecRecompute`, comparing the recomputed post-update price:
|1.4 − 0| ≥ 1/2) does not mark it and checkpoints 7/5. -/
theorem c1_counterexample :
    (roundStep pricePass updateShift bigThresholdConfig 0
      (initState 1 bigThresholdConfig)).converged ⟨0, Nat.zero_lt_one⟩ = true
    ∧ (roundStepSpecRecompute pricePass updateShift bigThresholdConfig 0
      (initState 1 bigThresholdConfig)).converged ⟨0, Nat.zero_lt_one⟩ = false
    ∧ (roundStep pricePass updateShift bigThresholdConfig 0
      (initState 1 bigThresholdConfig)).previousPrices ⟨0, Nat.zero_lt_one⟩ = 2/5
    ∧ (roundStepSpecRecompute pricePass updateShift bigThresholdConfig 0
      (initState 1 bigThresholdConfig)).previousPrices ⟨0, Nat.zero_lt_one⟩ = 7/5 := by
  have hcl : clampSigma (2/5 + 1) = 7/5 := by
    unfold clampSigma
    rw [show (2/5 + 1 : ℚ) = 7/5 by norm_num,
      max_eq_right (by norm_num : (1/1000 : ℚ) ≤ 7/5),
      min_eq_right (by norm_num : (7/5 : ℚ) ≤ 5)]
  refine ⟨?_, ?_, ?_, ?_⟩
  · simp [roundStep, initState, bigThresholdConfig, pricePass, updateShift]
    rw [abs_of_nonneg (by norm_num : (0:ℚ) ≤ 2/5)]
    norm_num
  · simp [roundStepSpecRecompute, initState, bigThresholdConfig, pricePass,
      updateShift, hcl]
    rw [abs_of_nonneg (by norm_num : (0:ℚ) ≤ 7/5)]
    norm_num
  · simp [roundStep, initState, bigThresholdConfig, pricePass, updateShift]
  · simp [roundStepSpecRecompute, initState, bigThresholdConfig, pricePass,
      updateShift, hcl]

/-- C1 amended: every `check_every` rounds (counting from round 0) the loop
compares, for each element, the model price computed at the START of the
round — from the volatility vector before that round's optimizer update —
against the price recorded at the previous checkpoint; it marks as
converged exactly the not-already-converged elements whose difference is
below `convergence_threshold`, records the current iteration index for
those, and overwrites every element's checkpoint price with that same
start-of-round price.  (No recomputation from the updated vector occurs.) -/
theorem c1_check_compares_preupdate_prices {n : ℕ}
    (priceFn : (Fin n → ℚ) → Fin n → ℚ)
    (update : ℕ → (Fin n → ℚ) → Fin n → ℚ) (cfg : LoopConfig)
    (it : ℕ) (s : LoopState n) (hit : it % cfg.checkEvery = 0) :
    (∀ i, (roundStep priceFn update cfg it s).converged i =
      (s.converged i ||
        decide (|priceFn s.sigma i - s.previousPrices i| < cfg.convergenceThreshold)))
    ∧ (∀ i, (roundStep priceFn update cfg it s).iterationsTaken i =
      if decide (|priceFn s.sigma i - s.previousPrices i| < cfg.convergenceThreshold)
          && !s.converged i
      then it else s.iterationsTaken i)
    ∧ (∀ i, (roundStep priceFn update cfg it s).previousPrices i = priceFn s.sigma i)
    ∧ (∀ i, (roundStep priceFn update cfg it s).sigma i =
      clampSigma (update it s.sigma i)) := by
  rw [roundStep_check priceFn update cfg it s hit]
  refine ⟨?_, fun i => rfl, fun i => rfl, fun i => rfl⟩
  intro i
  dsimp
  cases h : s.converged i <;> simp

/-- Witness for C1's amended statement at the counterexample round: the
checkpoint written is the pre-update price 2/5 and the element is marked
converged. -/
theorem c1_check_compares_preupdate_prices_witness :
    (roundStep pricePass updateShift bigThresholdConfig 0
      (initState 1 bigThresholdConfig)).previousPrices ⟨0, Nat.zero_lt_one⟩ =
      pricePass (initState 1 bigThresholdConfig).sigma ⟨0, Nat.zero_lt_one⟩
    ∧ (roundStep pricePass updateShift bigThresholdConfig 0
      (initState 1 bigThresholdConfig)).converged ⟨0, Nat.zero_lt_one⟩ =
      ((initState 1 bigThresholdConfig).converged ⟨0, Nat.zero_lt_one⟩ ||
        decide (|pricePass (initState 1 bigThresholdConfig).sigma ⟨0, Nat.zero_lt_one⟩ -
          (initState 1 bigThresholdConfig).previousPrices ⟨0, Nat.zero_lt_one⟩| <
          bigThresholdConfig.convergenceThreshold)) := by
  have h := c1_check_compares_preupdate_prices pricePass updateShift
    bigThresholdConfig 0 (initState 1 bigThresholdConfig)
    (by norm_num [bigThresholdConfig])
  exact ⟨h.2.2.1 ⟨0, Nat.zero_lt_one⟩, h.1 ⟨0, Nat.zero_lt_one⟩⟩

theorem loopGoVal_some_lt {n : ℕ} (priceFn : (Fin n → Val) → Fin n → Val)
    (update : ℕ → (Fin n → Val) → Fin n → Val) (cfg : LoopConfig) (fuel : ℕ) :
    ∀ iter s b s', loopGoVal priceFn update cfg iter fuel s = (s', some b) →
    b < iter + fuel := by
  induction fuel with
  | zero =>
    intro iter s b s' h
    simp [loopGoVal] at h
  | succ fuel ih =>
    intro iter s b s' h
    rw [show loopGoVal priceFn update cfg iter (fuel + 1) s =
        (if iter % cfg.checkEvery = 0 ∧
            (List.finRange n).all (roundStepVal priceFn update cfg iter s).converged = true
          then (roundStepVal priceFn update cfg iter s, some iter)
          else loopGoVal priceFn update cfg (iter + 1) fuel
            (roundStepVal priceFn update cfg iter s)) from rfl] at h
    by_cases hc : iter % cfg.checkEvery = 0 ∧
        (List.finRange n).all (roundStepVal priceFn update cfg iter s).converged = true
    · rw [if_pos hc] at h
      have : b = iter := by
        have := congrArg Prod.snd h
        simpa using this.symm
      omega
    · rw [if_neg hc] at h
      have := ih (iter + 1) _ b s' h
      omega

/-- Counterexample to C7 as stated: the claim says a round whose loss or
gradient is non-finite is skipped for the affected elements, so that a NaN
is never written into the VolatilityVector.  The source has no finiteness
check: in the round below, the optimizer output for the only element is
non-finite (`none` models the NaN that `optimizer.step()` produces from a
non-finite loss or gradient), and after the round the VolatilityVector
holds that non-finite value — `torch.clamp` propagates NaN — instead of the
previous finite sigma. -/
theorem c7_counterexample :
    (roundStepVal priceValPass updateValNaN defaultConfig 0
      (initStateVal 1 defaultConfig)).sigma ⟨0, Nat.zero_lt_one⟩ = none
    ∧ (initStateVal 1 defaultConfig).sigma ⟨0, Nat.zero_lt_one⟩ ≠ none := by
  constructor
  · simp [roundStepVal, initStateVal, defaultConfig, priceValPass, updateValNaN,
      clampValSigma]
  · simp [initStateVal]

/-- C7 amended: the engine performs no finiteness handling — each round
unconditionally writes the clamped optimizer output into every element of
the VolatilityVector (clamping propagates a non-finite value), so a
non-finite loss or gradient does propagate into sigma; independently, the
loop always terminates after at most `max_iterations` rounds whatever
values (finite or not) the rounds produce. -/
theorem c7_no_finiteness_guard {n : ℕ} (priceFn : (Fin n → Val) → Fin n → Val)
    (update : ℕ → (Fin n → Val) → Fin n → Val) (cfg : LoopConfig) :
    (∀ it s i, (roundStepVal priceFn update cfg it s).sigma i =
      clampValSigma (update it s.sigma i))
    ∧ roundsExecutedVal cfg (runLoopVal priceFn update cfg) ≤ cfg.maxIterations := by
  constructor
  · intro it s i
    unfold roundStepVal
    split <;> rfl
  · unfold roundsExecutedVal
    rcases h : (runLoopVal priceFn update cfg).2 with _ | b
    · exact le_refl _
    · have h' : runLoopVal priceFn update cfg =
          ((runLoopVal priceFn update cfg).1, some b) := by
        rw [← h]
      have := loopGoVal_some_lt priceFn update cfg cfg.maxIterations 0
        (initStateVal n cfg) b (runLoopVal priceFn update cfg).1 h'
      simpa using this

/-- C6: one optimizer step updates, for every batch element `i`
simultaneously, the first moment to `β₁·m_i + (1−β₁)·g_i` and the second to
`β₂·v_i + (1−β₂)·g_i²`, increments the shared step counter by exactly one,
and sets `params_i` to
`params_i − lr·(m_i'/(1−β₁^t'))/(sqrt(v_i'/(1−β₂^t')) + eps)` with the new
shared counter `t' = t + 1` — in particular the step applies this formula
verbatim to every element and performs no clamping. -/
theorem c6_adam_step_rule {n : ℕ} (lr beta1 beta2 eps : ℝ)
    (g params : Fin n → ℝ) (s : AdamState n) :
    (adamStep lr beta1 beta2 eps g params s).1.t = s.t + 1
    ∧ (∀ i, (adamStep lr beta1 beta2 eps g params s).1.m i =
      beta1 * s.m i + (1 - beta1) * g i)
    ∧ (∀ i, (adamStep lr beta1 beta2 eps g params s).1.v i =
      beta2 * s.v i + (1 - beta2) * g i ^ 2)
    ∧ (∀ i, (adamStep lr beta1 beta2 eps g params s).2 i =
      params i - lr * ((adamStep lr beta1 beta2 eps g params s).1.m i /
          (1 - beta1 ^ (s.t + 1))) /
        (Real.sqrt ((adamStep lr beta1 beta2 eps g params s).1.v i /
          (1 - beta2 ^ (s.t + 1))) + eps)) :=
  ⟨rfl, fun _ => rfl, fun _ => rfl, fun _ => rfl⟩

/-- C9: the result dictionary assembled at termination holds model prices
recomputed from the final VolatilityVector, per-element pricing errors
equal to the absolute difference between those final prices and the market
prices, and an MAE equal to the mean (sum divided by batch size) of those
errors; its sigma, converged and iteration fields are exactly the loop's
final state.  The result is a pure value built once by `finalize` — nothing
can mutate it afterwards. -/
theorem c9_result_assembly {n : ℕ} (priceFn : (Fin n → ℚ) → Fin n → ℚ)
    (update : ℕ → (Fin n → ℚ) → Fin n → ℚ) (cfg : LoopConfig)
    (market : Fin n → ℚ) :
    (solveBatchIV priceFn update cfg market).1.finalPrices =
      priceFn (runLoop priceFn update cfg).1.sigma
    ∧ (∀ i, (solveBatchIV priceFn update cfg market).1.pricingErrors i =
      |(solveBatchIV priceFn update cfg market).1.finalPrices i - market i|)
    ∧ (solveBatchIV priceFn update cfg market).1.mae =
      (∑ i, (solveBatchIV priceFn update cfg market).1.pricingErrors i) / (n : ℚ)
    ∧ (solveBatchIV priceFn update cfg market).1.sigma =
      (runLoop priceFn update cfg).1.sigma
    ∧ (solveBatchIV priceFn update cfg market).1.converged =
      (runLoop priceFn update cfg).1.converged
    ∧ (solveBatchIV priceFn update cfg market).1.iterations =
      (runLoop priceFn update cfg).1.iterationsTaken :=
  ⟨rfl, fun _ => rfl, rfl, rfl, rfl, rfl⟩

theorem sqrtT_zero : sqrtT 0 = 1/10^5 := by
  unfold sqrtT
  rw [zero_add, show (1/10^10 : ℝ) = (1/10^5)^2 by norm_num,
    Real.sqrt_sq (by norm_num : (0:ℝ) ≤ 1/10^5)]

/-- Counterexample to C5 as stated: the claim says the epsilon 1e-10 is
added to `sqrt(T)` before it is used as a denominator, making the `d1`
denominator `sigma·sqrt(T) + 1e-10`.  The source instead adds the epsilon
to `T` under the square root (`sqrt_T = torch.sqrt(T + 1e-10)`): at `T = 0`
the source's stabilized root is `sqrt(1e-10) = 1e-5`, not
`sqrt(0) + 1e-10 = 1e-10`, and with `sigma = 1` the two `d1` denominators
differ accordingly. -/
theorem c5_counterexample :
    sqrtT 0 ≠ sqrtTSpec 0 ∧ d1denom 1 0 ≠ d1denomSpec 1 0 := by
  constructor
  · rw [sqrtT_zero]
    unfold sqrtTSpec
    rw [Real.sqrt_zero]
    norm_num
  · unfold d1denom d1denomSpec
    rw [sqrtT_zero, Real.sqrt_zero]
    norm_num

/-- C5 amended: the pricer stabilizes by adding 1e-10 to `T` under the
square root (`sqrt_T = sqrt(T + 1e-10)`), and the denominator of `d1` is
`sigma·sqrt_T + 1e-10`; for every `T ≥ 0` and `sigma ≥ 0` (in particular
`T = 0` or sigma at its floor) that denominator is strictly positive, so
`d1` and `d2` are well-defined finite reals computed by the displayed
formulas rather than an error. -/
theorem c5_stabilized_denominator (S K T r sigma : ℝ)
    (hT : 0 ≤ T) (hs : 0 ≤ sigma) :
    0 < d1denom sigma T
    ∧ d1 S K T r sigma =
      (Real.log (S / K) + (r + 1/2 * sigma ^ 2) * T) / d1denom sigma T
    ∧ d2 S K T r sigma = d1 S K T r sigma - sigma * sqrtT T := by
  refine ⟨?_, rfl, rfl⟩
  unfold d1denom
  have h1 : 0 ≤ sigma * sqrtT T := mul_nonneg hs (Real.sqrt_nonneg _)
  have h2 : (0:ℝ) < 1/10^10 := by norm_num
  linarith

/-- Witness for C5's amended statement at an expired contract with sigma at
its clamp floor. -/
theorem c5_stabilized_denominator_witness :
    0 < d1denom (1/1000) 0
    ∧ d1 1 1 0 0 (1/1000) =
      (Real.log (1/1) + (0 + 1/2 * (1/1000) ^ 2) * 0) / d1denom (1/1000) 0
    ∧ d2 1 1 0 0 (1/1000) = d1 1 1 0 0 (1/1000) - 1/1000 * sqrtT 0 :=
  c5_stabilized_denominator 1 1 0 0 (1/1000) le_rfl (by norm_num)

/-- Counterexample to C8 as stated: for an expired at-the-money contract
(`S = K = 1`, `T = 0`, sigma at the clamp floor 0.001) the claimed payoff
is `max(S − K, 0) = 0`, but the pricer returns
`S·Phi(d1) − K·Phi(d2) = Phi(0) − Phi(−1e-8)`, which is strictly positive
for every strictly monotone CDF — in exact arithmetic the value only
approximates the payoff.  The standard normal CDF is strictly monotone, so
the identity fails for it too; the witness below exhibits a strictly
monotone `Phi` making the failure explicit. -/
theorem c8_counterexample :
    ∃ Phi : ℝ → ℝ, StrictMono Phi ∧
      blackScholes Phi 1 1 0 0 (1/1000) true ≠ max (1 - 1) 0 := by
  refine ⟨fun x => x, strictMono_id, ?_⟩
  have hd1 : d1 1 1 0 0 (1/1000) = 0 := by
    unfold d1
    rw [show (1:ℝ)/1 = 1 by norm_num, Real.log_one]
    norm_num
  have hd2 : d2 1 1 0 0 (1/1000) = -(1/1000 * (1/10^5)) := by
    unfold d2
    rw [hd1, sqrtT_zero]
    ring
  have hexp : Real.exp (-(0:ℝ) * 0) = 1 := by
    rw [mul_zero, Real.exp_zero]
  simp only [blackScholes, hd1, hd2, hexp]
  rw [show max ((1:ℝ) - 1) 0 = 0 by norm_num]
  norm_num

/-- C8 amended: for an expired contract (`T = 0`) the pricer evaluates
without division by zero — the `d1` denominator is strictly positive for
every sigma in the clamped range — and for any CDF-like `Phi` (values in
[0, 1]) it returns a finite value bounded by `[−K, S]` for calls and
`[−S, K]` for puts; the value approximates `max(S−K, 0)` / `max(K−S, 0)`
(the float32 source rounds the saturated CDF to exactly 0 or 1) but in
exact arithmetic need not equal it. -/
theorem c8_expired_bounded (Phi : ℝ → ℝ) (hPhi : ∀ x, 0 ≤ Phi x ∧ Phi x ≤ 1)
    (S K r sigma : ℝ) (hS : 0 < S) (hK : 0 < K)
    (hs1 : 1/1000 ≤ sigma) (hs2 : sigma ≤ 5) :
    0 < d1denom sigma 0
    ∧ (-K ≤ blackScholes Phi S K 0 r sigma true ∧
        blackScholes Phi S K 0 r sigma true ≤ S)
    ∧ (-S ≤ blackScholes Phi S K 0 r sigma false ∧
        blackScholes Phi S K 0 r sigma false ≤ K) := by
  have hd : 0 < d1denom sigma 0 := by
    unfold d1denom
    have h1 : 0 ≤ sigma * sqrtT 0 :=
      mul_nonneg (by linarith) (Real.sqrt_nonneg _)
    have h2 : (0:ℝ) < 1/10^10 := by norm_num
    linarith
  have hexp : Real.exp (-r * 0) = 1 := by
    rw [mul_zero, Real.exp_zero]
  have ha := hPhi (d1 S K 0 r sigma)
  have hb := hPhi (d2 S K 0 r sigma)
  have ha' := hPhi (-d1 S K 0 r sigma)
  have hb' := hPhi (-d2 S K 0 r sigma)
  refine ⟨hd, ?_, ?_⟩
  · simp only [blackScholes, hexp]
    rw [if_pos trivial]
    constructor <;> nlinarith [ha.1, ha.2, hb.1, hb.2]
  · simp only [blackScholes, hexp]
    rw [if_neg Bool.false_ne_true]
    constructor <;> nlinarith [ha'.1, ha'.2, hb'.1, hb'.2]

/-- Witness for C8's amended statement: a constant 1/2 CDF (a function with
values in [0, 1]) at `S = K = 1`, `r = 0`, `sigma = 1`. -/
theorem c8_expired_bounded_witness :
    0 < d1denom 1 0
    ∧ (-1 ≤ blackScholes (fun _ => 1/2) 1 1 0 0 1 true ∧
        blackScholes (fun _ => 1/2) 1 1 0 0 1 true ≤ 1)
    ∧ (-1 ≤ blackScholes (fun _ => 1/2) 1 1 0 0 1 false ∧
        blackScholes (fun _ => 1/2) 1 1 0 0 1 false ≤ 1) :=
  c8_expired_bounded (fun _ => 1/2) (fun _ => ⟨by norm_num, by norm_num⟩)
    1 1 0 1 (by norm_num) (by norm_num) (by norm_num) (by norm_num)

end IVCalib
